import Mathlib

/-!
Shallow embedding of `matchbox_socket/src/webrtc_socket/wasm/message_loop.rs`.

The wasm message loop drives two handshake state machines (`handshake_offer`,
`handshake_accept`).  Each handshake is an async function whose only
interactions with the outside world are:

  * reading `PeerSignal`s from its per-peer inbox (`signal_receiver`),
  * platform callbacks (`onicecandidate` on the peer connection, `onopen`
    on the data channels) which run only while the handshake is suspended
    at an `await`,
  * effects on the peer connection (`set_local_description`,
    `set_remote_description`, `add_ice_candidate`, attaching/detaching the
    `onicecandidate` observer) and sends over signalling
    (`signal_peer.send`).

We embed each handshake as a deterministic state machine over an input
schedule `List Event` (the interleaving of inbox messages and platform
callbacks, in the order the single-threaded executor delivers them) that
emits a trace `List Action` (the effects, in program order).  Awaits
between consecutive synchronous effects are collapsed: a run of effects
that the source performs with no intervening read from the inbox and no
observer-dependent behaviour is emitted atomically.  This preserves the
order of all effects and the attachment state of the observer at each
callback, which is what the verified properties are about.
-/

namespace Matchbox

/-- Opaque peer identifier (uuid string in the source). -/
abbrev PeerId := String

/-- Application payload: a boxed byte slice in the source. -/
abbrev Packet := List Nat

/-- Source type `crate::webrtc_socket::Channel`: quality-of-service tag. -/
inductive Channel
  | Unreliable
  | Reliable
deriving DecidableEq, Repr

/-- SDP type tag (`RtcSdpType::Offer` / `RtcSdpType::Answer`). -/
inductive SdpType
  | offer
  | answer
deriving DecidableEq, Repr

/-- Source type `crate::webrtc_socket::messages::PeerSignal`. -/
inductive PeerSignal
  | Offer (sdp : String)
  | Answer (sdp : String)
  | IceCandidate (candidate : String)
deriving DecidableEq, Repr

/-- The platform `RTCIceCandidate` object handed to `onicecandidate`:
the handler only reads its `candidate` field (`candidate.candidate()`),
the remaining fields exist on the platform object but are never read. -/
structure RtcIceCandidate where
  candidate : String
  sdpMid : Option String
  sdpMLineIndex : Option Nat
  usernameFragment : Option String
deriving DecidableEq, Repr

/-- The candidate-init dictionary (`RtcIceCandidateInit`) built on the
receiving side before `add_ice_candidate_with_opt_rtc_ice_candidate_init`. -/
structure RtcIceCandidateInit where
  candidate : String
  sdpMid : Option String
  sdpMLineIndex : Option Nat
  usernameFragment : Option String
deriving DecidableEq, Repr

/-- Construction `RtcIceCandidateInit::new(&candidate)` followed by
`.sdp_m_line_index(Some(0))` (message_loop.rs lines 214-215, 234-235,
350-351, 370-371): only the candidate line and `sdpMLineIndex = 0` are
populated; `sdpMid` and `usernameFragment` stay unset. -/
def iceCandidateInit (candidate : String) : RtcIceCandidateInit :=
  { candidate := candidate
    sdpMid := none
    sdpMLineIndex := some 0
    usernameFragment := none }

/-- Modelled from the spec: `DATA_CHANNEL_ID` is a compile-time constant
defined in `crate::webrtc_socket`, outside the given source file.  Its
concrete value is irrelevant to every claim below; only the fact that both
channels of a pair are configured with this same constant matters. -/
def DATA_CHANNEL_ID : Nat := 0

/-- Binary type `web_sys::RtcDataChannelType` as used here. -/
inductive RtcDataChannelType
  | Arraybuffer
  | Blob
deriving DecidableEq, Repr

/-- The observable configuration of a data channel as fixed by
`create_data_channel` (message_loop.rs lines 441-456). -/
structure DataChannelConfig where
  label : String
  ordered : Bool
  maxRetransmits : Nat
  negotiated : Bool
  id : Nat
  binaryType : RtcDataChannelType
  channelType : Channel
deriving DecidableEq, Repr

/-- Function `create_data_channel` (lines 441-456): fixed label "webudp",
`ordered(false)`, `max_retransmits(0)`, `negotiated(true)`,
`id(DATA_CHANNEL_ID)`, binary type array-buffer. -/
def create_data_channel (channelType : Channel) : DataChannelConfig :=
  { label := "webudp"
    ordered := false
    maxRetransmits := 0
    negotiated := true
    id := DATA_CHANNEL_ID
    binaryType := RtcDataChannelType.Arraybuffer
    channelType := channelType }

/-- Function `create_data_channel_pair` (lines 417-439): an (unreliable, reliable)
pair, both built by `create_data_channel`. -/
def create_data_channel_pair : DataChannelConfig × DataChannelConfig :=
  (create_data_channel Channel.Unreliable, create_data_channel Channel.Reliable)

/-- Effects a handshake performs, in program order. -/
inductive Action
  | createOffer
  | createAnswer
  | setLocalDescription (ty : SdpType) (sdp : String)
  | setRemoteDescription (ty : SdpType) (sdp : String)
  | sendSignal (s : PeerSignal)
  | attachIceObserver
  | detachIceObserver
  | addIceCandidate (init : RtcIceCandidateInit)
deriving DecidableEq, Repr

/-- Inputs a handshake reacts to: an inbox message, the inbox closing,
the platform firing `onicecandidate`, or a data channel firing `onopen`. -/
inductive Event
  | signal (s : PeerSignal)
  | signalClosed
  | localCandidate (c : RtcIceCandidate)
  | channelOpen (ch : Channel)
deriving DecidableEq, Repr

/-- Phase of a handshake.  `waitRemoteSdp` is the first inbox loop
(waiting for the Answer on the offerer side, for the Offer on the
accepter side); `waitOpen` is the second loop selecting between
`channel_ready_rx` and further inbox candidates. -/
inductive HsPhase
  | waitRemoteSdp
  | waitOpen
  | doneOk
  | doneErr (msg : String)
deriving DecidableEq, Repr

/-- Handshake machine state: current phase, the `received_candidates`
buffer, and the number of queued `channel_ready` tokens (`try_send(1)`
by the channels' `onopen` handlers, consumed by `channel_ready_rx`). -/
structure HsState where
  phase : HsPhase
  buffered : List String
  ready : Nat
deriving DecidableEq, Repr

/-- Error string of `ok_or` at lines 176 and 284. -/
def signalLostMsg : String :=
  "Signal server connection lost in the middle of a handshake"

/-- Actions the offerer performs when the Answer arrives (lines 190-221):
set the remote description, attach the `onicecandidate` observer, then
apply every buffered remote candidate wrapped by `iceCandidateInit`. -/
def offerAnswerActions (buffered : List String) (sdp : String) : List Action :=
  Action.setRemoteDescription SdpType.answer sdp ::
    Action.attachIceObserver ::
      buffered.map (fun c => Action.addIceCandidate (iceCandidateInit c))

/-- One transition of the offerer (`handshake_offer`, lines 138-259) on
one input event.  In `waitRemoteSdp` (lines 169-188) candidates are
buffered, stray signals ignored, inbox close fails the handshake, and a
local candidate is dropped because the observer is not attached yet.  In
`waitOpen` (lines 223-244) remote candidates are applied immediately,
local candidates are forwarded by the attached observer, and the first
ready token breaks the loop, after which the observer is detached
(line 250). -/
def offerStep : HsState → Event → HsState × List Action
  | ⟨HsPhase.waitRemoteSdp, buf, ready⟩, Event.signal (PeerSignal.Answer sdp) =>
      (⟨if ready > 0 then HsPhase.doneOk else HsPhase.waitOpen, buf, ready⟩,
        offerAnswerActions buf sdp ++
          if ready > 0 then [Action.detachIceObserver] else [])
  | ⟨HsPhase.waitRemoteSdp, buf, ready⟩, Event.signal (PeerSignal.IceCandidate c) =>
      (⟨HsPhase.waitRemoteSdp, buf ++ [c], ready⟩, [])
  | ⟨HsPhase.waitRemoteSdp, buf, ready⟩, Event.signal (PeerSignal.Offer _) =>
      (⟨HsPhase.waitRemoteSdp, buf, ready⟩, [])
  | ⟨HsPhase.waitRemoteSdp, buf, ready⟩, Event.signalClosed =>
      (⟨HsPhase.doneErr signalLostMsg, buf, ready⟩, [])
  | ⟨HsPhase.waitRemoteSdp, buf, ready⟩, Event.localCandidate _ =>
      (⟨HsPhase.waitRemoteSdp, buf, ready⟩, [])
  | ⟨HsPhase.waitRemoteSdp, buf, ready⟩, Event.channelOpen _ =>
      (⟨HsPhase.waitRemoteSdp, buf, ready + 1⟩, [])
  | ⟨HsPhase.waitOpen, buf, ready⟩, Event.signal (PeerSignal.IceCandidate c) =>
      (⟨HsPhase.waitOpen, buf, ready⟩, [Action.addIceCandidate (iceCandidateInit c)])
  | ⟨HsPhase.waitOpen, buf, ready⟩, Event.localCandidate obj =>
      (⟨HsPhase.waitOpen, buf, ready⟩,
        [Action.sendSignal (PeerSignal.IceCandidate obj.candidate)])
  | ⟨HsPhase.waitOpen, buf, ready⟩, Event.channelOpen _ =>
      (⟨HsPhase.doneOk, buf, ready⟩, [Action.detachIceObserver])
  | ⟨HsPhase.waitOpen, buf, ready⟩, _ =>
      (⟨HsPhase.waitOpen, buf, ready⟩, [])
  | s, _ => (s, [])

/-- Actions the accepter performs when the Offer arrives (lines 300-357):
set the remote description from the Offer, create the Answer, set it as
local description, send it, attach the observer, then apply the buffered
candidates. -/
def acceptOfferActions (buffered : List String) (offerSdp answerSdp : String) :
    List Action :=
  Action.setRemoteDescription SdpType.offer offerSdp ::
    Action.createAnswer ::
      Action.setLocalDescription SdpType.answer answerSdp ::
        Action.sendSignal (PeerSignal.Answer answerSdp) ::
          Action.attachIceObserver ::
            buffered.map (fun c => Action.addIceCandidate (iceCandidateInit c))

/-- One transition of the accepter (`handshake_accept`, lines 261-395);
`answerSdp` is the SDP the platform's `create_answer` produces.  Mirrors
`offerStep` with the Offer as the awaited signal. -/
def acceptStep (answerSdp : String) : HsState → Event → HsState × List Action
  | ⟨HsPhase.waitRemoteSdp, buf, ready⟩, Event.signal (PeerSignal.Offer sdp) =>
      (⟨if ready > 0 then HsPhase.doneOk else HsPhase.waitOpen, buf, ready⟩,
        acceptOfferActions buf sdp answerSdp ++
          if ready > 0 then [Action.detachIceObserver] else [])
  | ⟨HsPhase.waitRemoteSdp, buf, ready⟩, Event.signal (PeerSignal.IceCandidate c) =>
      (⟨HsPhase.waitRemoteSdp, buf ++ [c], ready⟩, [])
  | ⟨HsPhase.waitRemoteSdp, buf, ready⟩, Event.signal (PeerSignal.Answer _) =>
      (⟨HsPhase.waitRemoteSdp, buf, ready⟩, [])
  | ⟨HsPhase.waitRemoteSdp, buf, ready⟩, Event.signalClosed =>
      (⟨HsPhase.doneErr signalLostMsg, buf, ready⟩, [])
  | ⟨HsPhase.waitRemoteSdp, buf, ready⟩, Event.localCandidate _ =>
      (⟨HsPhase.waitRemoteSdp, buf, ready⟩, [])
  | ⟨HsPhase.waitRemoteSdp, buf, ready⟩, Event.channelOpen _ =>
      (⟨HsPhase.waitRemoteSdp, buf, ready + 1⟩, [])
  | ⟨HsPhase.waitOpen, buf, ready⟩, Event.signal (PeerSignal.IceCandidate c) =>
      (⟨HsPhase.waitOpen, buf, ready⟩, [Action.addIceCandidate (iceCandidateInit c)])
  | ⟨HsPhase.waitOpen, buf, ready⟩, Event.localCandidate obj =>
      (⟨HsPhase.waitOpen, buf, ready⟩,
        [Action.sendSignal (PeerSignal.IceCandidate obj.candidate)])
  | ⟨HsPhase.waitOpen, buf, ready⟩, Event.channelOpen _ =>
      (⟨HsPhase.doneOk, buf, ready⟩, [Action.detachIceObserver])
  | ⟨HsPhase.waitOpen, buf, ready⟩, _ =>
      (⟨HsPhase.waitOpen, buf, ready⟩, [])
  | s, _ => (s, [])

/-- Run a handshake step function over a whole schedule, collecting the
emitted actions in order. -/
def runHs (step : HsState → Event → HsState × List Action) :
    HsState → List Event → HsState × List Action
  | s, [] => (s, [])
  | s, e :: rest =>
      ((runHs step (step s e).1 rest).1,
        (step s e).2 ++ (runHs step (step s e).1 rest).2)

/-- Initial handshake state: first inbox loop, empty candidate buffer,
no ready tokens queued. -/
def hsInit : HsState := ⟨HsPhase.waitRemoteSdp, [], 0⟩

/-- Effects the offerer performs before first reading its inbox
(lines 155-167): create the offer, set it as local description, send it.
`offerSdp` is the SDP the platform's `create_offer` produces. -/
def offerInitActions (offerSdp : String) : List Action :=
  [Action.createOffer,
    Action.setLocalDescription SdpType.offer offerSdp,
    Action.sendSignal (PeerSignal.Offer offerSdp)]

/-- Full effect trace of `handshake_offer` on a schedule. -/
def handshake_offer_trace (offerSdp : String) (sched : List Event) : List Action :=
  offerInitActions offerSdp ++ (runHs offerStep hsInit sched).2

/-- Outcome of `handshake_offer` after the schedule is consumed:
`none` while still pending, `some (Except.ok ...)` once the channel
opened (the `Ok((signal_peer.id, unreliable, reliable))` of lines
254-258), `some (Except.error ...)` on failure. -/
def handshake_offer_result (pid : PeerId) (sched : List Event) :
    Option (Except String (PeerId × DataChannelConfig × DataChannelConfig)) :=
  match (runHs offerStep hsInit sched).1.phase with
  | HsPhase.doneOk => some (Except.ok (pid, create_data_channel_pair))
  | HsPhase.doneErr msg => some (Except.error msg)
  | _ => none

/-- Full effect trace of `handshake_accept` on a schedule (the accepter
performs no description/signal effects before its first inbox read). -/
def handshake_accept_trace (answerSdp : String) (sched : List Event) : List Action :=
  (runHs (acceptStep answerSdp) hsInit sched).2

/-- Outcome of `handshake_accept` after the schedule is consumed. -/
def handshake_accept_result (answerSdp : String) (pid : PeerId) (sched : List Event) :
    Option (Except String (PeerId × DataChannelConfig × DataChannelConfig)) :=
  match (runHs (acceptStep answerSdp) hsInit sched).1.phase with
  | HsPhase.doneOk => some (Except.ok (pid, create_data_channel_pair))
  | HsPhase.doneErr msg => some (Except.error msg)
  | _ => none

/-! ### The message loop branches -/

/-- The loop's `data_channels: HashMap<PeerId, (RtcDataChannel, RtcDataChannel)>`
modelled as an association list (first binding wins). -/
abbrev DataChannels := List (PeerId × (DataChannelConfig × DataChannelConfig))

/-- HashMap lookup. -/
def dcLookup (m : DataChannels) (p : PeerId) :
    Option (DataChannelConfig × DataChannelConfig) :=
  match m with
  | [] => none
  | (q, v) :: rest => if q = p then some v else dcLookup rest p

/-- HashMap insert (replaces an existing binding). -/
def dcInsert (m : DataChannels) (p : PeerId)
    (v : DataChannelConfig × DataChannelConfig) : DataChannels :=
  (p, v) :: List.filter (fun q => q.1 ≠ p) m

/-- Function `check` (lines 486-489): `res.as_ref().expect("handshake failed")`,
i.e. a panic with that message whenever the handshake result is an error. -/
def check (res : Except String (PeerId × DataChannelConfig × DataChannelConfig)) :
    Option String :=
  match res with
  | Except.error _ => some "handshake failed"
  | Except.ok _ => none

/-- Observable outcome of running one body of the loop's `select!`:
either the loop keeps going (with the updated channel map, the peer ids
published on `new_connected_peers_tx`, and the packets handed to data
channels), or it panics with a message, or it breaks out of the loop. -/
inductive LoopOutcome
  | ran (dcs : DataChannels) (published : List PeerId)
        (sent : List (DataChannelConfig × Packet))
  | aborted (msg : String)
  | loopExit
deriving Repr

/-- The `offer_handshakes.select_next_some()` / `accept_handshakes`
branch (lines 53-67): `check(&res)` panics on a failed handshake;
otherwise the channel pair is inserted into `data_channels` and only
then is the peer id published on `new_connected_peers_tx`. -/
def handshake_complete_branch (dcs : DataChannels)
    (res : Except String (PeerId × DataChannelConfig × DataChannelConfig)) :
    LoopOutcome :=
  match check res with
  | some msg => LoopOutcome.aborted msg
  | none =>
      match res with
      | Except.ok (p, u, r) =>
          LoopOutcome.ran (dcInsert dcs p (u, r)) [p] []
      | Except.error _ => LoopOutcome.aborted "handshake failed"

/-- The `peer_messages_out_rx.next()` branch (lines 109-130): `None`
exits the loop; otherwise the channel pair is looked up with
`.expect("couldn't find data channel for peer")` — a panic when the peer
has no entry — and the packet goes to the reliable channel iff the tag
is `Channel::Reliable` (the stored pair is `(unreliable, reliable)`). -/
def outbound_message_branch (dcs : DataChannels)
    (message : Option (PeerId × Channel × Packet)) : LoopOutcome :=
  match message with
  | none => LoopOutcome.loopExit
  | some (p, ch, pkt) =>
      match dcLookup dcs p with
      | none => LoopOutcome.aborted "couldn't find data channel for peer"
      | some (u, r) =>
          LoopOutcome.ran dcs []
            [((if ch = Channel.Reliable then r else u), pkt)]

/-! ### Trace monitors and counters -/

/-- Folding state of the both-descriptions monitor: component 1 is "no
violation seen so far", component 2.1 is "a local description has been
set", component 2.2 is "a remote description has been set".  An outbound
`IceCandidate` signal keeps component 1 true only if both descriptions
were already set strictly earlier in the trace. -/
def iceSendStep (st : Bool × Bool × Bool) (a : Action) : Bool × Bool × Bool :=
  match a with
  | Action.setLocalDescription _ _ => (st.1, true, st.2.2)
  | Action.setRemoteDescription _ _ => (st.1, st.2.1, true)
  | Action.sendSignal (PeerSignal.IceCandidate _) =>
      (st.1 && st.2.1 && st.2.2, st.2.1, st.2.2)
  | _ => st

/-- The trace satisfies "every outbound IceCandidate signal happens
strictly after both descriptions have been set". -/
def iceSendsGuarded (T : List Action) : Bool :=
  (T.foldl iceSendStep (true, false, false)).1

/-- Folding state of the remote-description monitor: component 1 is "no
violation seen so far", component 2 is "the remote description has been
set".  An `addIceCandidate` keeps component 1 true only if the remote
description was set strictly earlier in the trace. -/
def addIceStep (st : Bool × Bool) (a : Action) : Bool × Bool :=
  match a with
  | Action.setRemoteDescription _ _ => (st.1, true)
  | Action.addIceCandidate _ => (st.1 && st.2, st.2)
  | _ => st

/-- The trace satisfies "every addIceCandidate happens strictly after the
remote description has been set". -/
def addsGuarded (T : List Action) : Bool :=
  (T.foldl addIceStep (true, false)).1

/-- Is this action the transmission of candidate line `c`? -/
def isIceSend (c : String) (a : Action) : Bool :=
  match a with
  | Action.sendSignal (PeerSignal.IceCandidate d) => d = c
  | _ => false

/-- Number of `IceCandidate c` signals transmitted in the trace. -/
def countIceSends (c : String) (T : List Action) : Nat :=
  T.countP (isIceSend c)

/-- Is this event the platform firing `onicecandidate` with line `c`? -/
def isLocalCand (c : String) (e : Event) : Bool :=
  match e with
  | Event.localCandidate obj => obj.candidate = c
  | _ => false

/-- Number of times the platform fired `onicecandidate` with line `c`. -/
def countLocalCandidates (c : String) (evts : List Event) : Nat :=
  evts.countP (isLocalCand c)

/-- Candidate lines of the `IceCandidate` signals in an event list, in
arrival order (what `received_candidates` collects). -/
def iceSignals : List Event → List String
  | [] => []
  | Event.signal (PeerSignal.IceCandidate c) :: rest => c :: iceSignals rest
  | _ :: rest => iceSignals rest

/-- Number of `onopen` firings in an event list. -/
def countOpens : List Event → Nat
  | [] => 0
  | Event.channelOpen _ :: rest => countOpens rest + 1
  | _ :: rest => countOpens rest

/-! ### Generic lemmas about `runHs` -/

theorem runHs_append (step : HsState → Event → HsState × List Action)
    (a b : List Event) (s : HsState) :
    runHs step s (a ++ b) =
      ((runHs step (runHs step s a).1 b).1,
        (runHs step s a).2 ++ (runHs step (runHs step s a).1 b).2) := by
  induction a generalizing s with
  | nil => simp [runHs]
  | cons e rest ih => simp [runHs, ih]

theorem runHs_foldl_invariant {σ : Type} (step : HsState → Event → HsState × List Action)
    (f : σ → Action → σ) (Inv : HsState → σ → Prop)
    (hstep : ∀ s e st, Inv s st → Inv (step s e).1 (List.foldl f st (step s e).2)) :
    ∀ (evts : List Event) (s : HsState) (st : σ), Inv s st →
      Inv (runHs step s evts).1 (List.foldl f st (runHs step s evts).2) := by
  intro evts
  induction evts with
  | nil => intro s st h; simpa [runHs] using h
  | cons e rest ih =>
      intro s st h
      simp only [runHs, List.foldl_append]
      exact ih _ _ (hstep s e st h)

theorem runHs_action_source (step : HsState → Event → HsState × List Action)
    (R : Action → Event → Prop)
    (hstep : ∀ s e a, a ∈ (step s e).2 → R a e) :
    ∀ (evts : List Event) (s : HsState) (a : Action),
      a ∈ (runHs step s evts).2 → ∃ e ∈ evts, R a e := by
  intro evts
  induction evts with
  | nil => intro s a h; simp [runHs] at h
  | cons e rest ih =>
      intro s a h
      simp only [runHs, List.mem_append] at h
      rcases h with h | h
      · exact ⟨e, List.mem_cons_self e rest, hstep s e a h⟩
      · obtain ⟨e2, he2, hr⟩ := ih _ a h
        exact ⟨e2, List.mem_cons_of_mem e he2, hr⟩

theorem runHs_forall_actions (step : HsState → Event → HsState × List Action)
    (P : Action → Prop)
    (hstep : ∀ s e a, a ∈ (step s e).2 → P a) :
    ∀ (evts : List Event) (s : HsState) (a : Action),
      a ∈ (runHs step s evts).2 → P a := by
  intro evts
  induction evts with
  | nil => intro s a h; simp [runHs] at h
  | cons e rest ih =>
      intro s a h
      simp only [runHs, List.mem_append] at h
      rcases h with h | h
      · exact hstep s e a h
      · exact ih _ a h

theorem runHs_count_le (step : HsState → Event → HsState × List Action) (c : String)
    (hstep : ∀ s e, countIceSends c (step s e).2 ≤ countLocalCandidates c [e]) :
    ∀ (evts : List Event) (s : HsState),
      countIceSends c (runHs step s evts).2 ≤ countLocalCandidates c evts := by
  intro evts
  induction evts with
  | nil => intro s; simp [runHs, countIceSends, countLocalCandidates]
  | cons e rest ih =>
      intro s
      have h1 := hstep s e
      have h2 := ih (step s e).1
      simp only [runHs, countIceSends, countLocalCandidates, List.countP_append,
        List.countP_cons, List.countP_nil] at *
      omega

theorem runHs_absorb (step : HsState → Event → HsState × List Action) (s : HsState)
    (habs : ∀ e, step s e = (s, [])) :
    ∀ evts, runHs step s evts = (s, []) := by
  intro evts
  induction evts with
  | nil => simp [runHs]
  | cons e rest ih => simp [runHs, habs, ih]

theorem runHs_doneOk_needs_open (step : HsState → Event → HsState × List Action)
    (hquiet : ∀ s e, s.ready = 0 → s.phase ≠ HsPhase.doneOk →
      (∀ ch, e ≠ Event.channelOpen ch) →
      (step s e).1.ready = 0 ∧ (step s e).1.phase ≠ HsPhase.doneOk) :
    ∀ (evts : List Event) (s : HsState), s.ready = 0 → s.phase ≠ HsPhase.doneOk →
      (runHs step s evts).1.phase = HsPhase.doneOk →
      ∃ ch, Event.channelOpen ch ∈ evts := by
  intro evts
  induction evts with
  | nil =>
      intro s h0 hph hdone
      simp [runHs] at hdone
      exact absurd hdone hph
  | cons e rest ih =>
      intro s h0 hph hdone
      by_cases hop : ∃ ch, e = Event.channelOpen ch
      · obtain ⟨ch, rfl⟩ := hop
        exact ⟨ch, List.mem_cons_self _ _⟩
      · push_neg at hop
        obtain ⟨h0', hph'⟩ := hquiet s e h0 hph hop
        simp only [runHs] at hdone
        obtain ⟨ch, hch⟩ := ih _ h0' hph' hdone
        exact ⟨ch, List.mem_cons_of_mem e hch⟩

theorem runHs_doneOk_last_detach (step : HsState → Event → HsState × List Action)
    (habs : ∀ s e, (s.phase = HsPhase.doneOk ∨ ∃ m, s.phase = HsPhase.doneErr m) →
      step s e = (s, []))
    (hlast : ∀ s e, s.phase ≠ HsPhase.doneOk → (step s e).1.phase = HsPhase.doneOk →
      (step s e).2.getLast? = some Action.detachIceObserver) :
    ∀ (evts : List Event) (s : HsState), s.phase ≠ HsPhase.doneOk →
      (runHs step s evts).1.phase = HsPhase.doneOk →
      (runHs step s evts).2.getLast? = some Action.detachIceObserver := by
  intro evts
  induction evts with
  | nil =>
      intro s hph hdone
      simp [runHs] at hdone
      exact absurd hdone hph
  | cons e rest ih =>
      intro s hph hdone
      simp only [runHs] at hdone ⊢
      by_cases hok : (step s e).1.phase = HsPhase.doneOk
      · have habs2 : ∀ e2, step (step s e).1 e2 = ((step s e).1, []) := by
          intro e2; exact habs _ e2 (Or.inl hok)
        rw [runHs_absorb step _ habs2 rest]
        simpa using hlast s e hph hok
      · have htail := ih (step s e).1 hok hdone
        have hne : (runHs step (step s e).1 rest).2 ≠ [] := by
          intro hnil
          rw [hnil] at htail
          simp at htail
        rw [List.getLast?_append_of_ne_nil _ hne]
        exact htail

/-! ### Helper computations over the candidate-application action block -/

theorem foldl_iceSendStep_addIces (bs : List String) (st : Bool × Bool × Bool) :
    List.foldl iceSendStep st
      (bs.map fun c => Action.addIceCandidate (iceCandidateInit c)) = st := by
  induction bs generalizing st with
  | nil => rfl
  | cons b rest ih => simp [iceSendStep, ih]

theorem foldl_addIceStep_addIces (bs : List String) (ok : Bool) :
    List.foldl addIceStep (ok, true)
      (bs.map fun c => Action.addIceCandidate (iceCandidateInit c)) = (ok, true) := by
  induction bs with
  | nil => rfl
  | cons b rest ih => simp [addIceStep, ih]

theorem countP_iceSend_addIces (c : String) (bs : List String) :
    List.countP (isIceSend c)
      (bs.map fun b => Action.addIceCandidate (iceCandidateInit b)) = 0 := by
  induction bs with
  | nil => rfl
  | cons b rest ih => simp [isIceSend, List.countP_cons, ih]

theorem countOpens_eq_zero (pre : List Event)
    (h : ∀ ch, Event.channelOpen ch ∉ pre) : countOpens pre = 0 := by
  induction pre with
  | nil => rfl
  | cons e rest ih =>
      have h' : ∀ ch, Event.channelOpen ch ∉ rest :=
        fun ch hm => h ch (List.mem_cons_of_mem _ hm)
      cases e with
      | channelOpen ch => exact absurd (List.mem_cons_self _ _) (h ch)
      | signal sg => simpa [countOpens] using ih h'
      | signalClosed => simpa [countOpens] using ih h'
      | localCandidate obj => simpa [countOpens] using ih h'

theorem mem_iceSignals {c : String} : ∀ {pre : List Event},
    Event.signal (PeerSignal.IceCandidate c) ∈ pre → c ∈ iceSignals pre := by
  intro pre
  induction pre with
  | nil => intro h; simp at h
  | cons e rest ih =>
      intro h
      rcases List.mem_cons.mp h with heq | hm
      · rw [← heq]; simp [iceSignals]
      · clear h
        cases e with
        | signal sg =>
            cases sg with
            | IceCandidate d => simpa [iceSignals] using Or.inr (ih hm)
            | Offer d => simpa [iceSignals] using ih hm
            | Answer d => simpa [iceSignals] using ih hm
        | signalClosed => simpa [iceSignals] using ih hm
        | localCandidate obj => simpa [iceSignals] using ih hm
        | channelOpen ch => simpa [iceSignals] using ih hm

/-! ### Step obligations for the offerer -/

theorem offerStep_iceSend_inv (s : HsState) (e : Event) (st : Bool × Bool × Bool)
    (h1 : st.1 = true) (h2 : st.2.1 = true)
    (h3 : s.phase = HsPhase.waitOpen ∨ s.phase = HsPhase.doneOk → st.2.2 = true) :
    (List.foldl iceSendStep st (offerStep s e).2).1 = true ∧
      (List.foldl iceSendStep st (offerStep s e).2).2.1 = true ∧
      ((offerStep s e).1.phase = HsPhase.waitOpen ∨
          (offerStep s e).1.phase = HsPhase.doneOk →
        (List.foldl iceSendStep st (offerStep s e).2).2.2 = true) := by
  obtain ⟨ph, buf, ready⟩ := s
  cases ph with
  | waitRemoteSdp =>
      cases e with
      | signal sg =>
          cases sg with
          | Answer sdp =>
              by_cases hr : ready > 0 <;>
                simp [offerStep, hr, offerAnswerActions, iceSendStep,
                  foldl_iceSendStep_addIces, h1, h2]
          | Offer sdp => simp [offerStep, h1, h2]
          | IceCandidate c => simp [offerStep, h1, h2]
      | signalClosed => simp [offerStep, h1, h2]
      | localCandidate obj => simp [offerStep, h1, h2]
      | channelOpen ch => simp [offerStep, h1, h2]
  | waitOpen =>
      have hr : st.2.2 = true := h3 (Or.inl rfl)
      cases e with
      | signal sg => cases sg <;> simp [offerStep, iceSendStep, h1, h2, hr]
      | signalClosed => simp [offerStep, h1, h2, hr]
      | localCandidate obj => simp [offerStep, iceSendStep, h1, h2, hr]
      | channelOpen ch => simp [offerStep, iceSendStep, h1, h2, hr]
  | doneOk =>
      have hr : st.2.2 = true := h3 (Or.inr rfl)
      cases e <;> simp [offerStep, h1, h2, hr]
  | doneErr m =>
      cases e <;> simp [offerStep, h1, h2]

theorem offerStep_addIce_inv (s : HsState) (e : Event) (st : Bool × Bool)
    (h1 : st.1 = true)
    (h3 : s.phase = HsPhase.waitOpen ∨ s.phase = HsPhase.doneOk → st.2 = true) :
    (List.foldl addIceStep st (offerStep s e).2).1 = true ∧
      ((offerStep s e).1.phase = HsPhase.waitOpen ∨
          (offerStep s e).1.phase = HsPhase.doneOk →
        (List.foldl addIceStep st (offerStep s e).2).2 = true) := by
  obtain ⟨ph, buf, ready⟩ := s
  obtain ⟨ok, r⟩ := st
  simp only at h1 h3
  subst h1
  cases ph with
  | waitRemoteSdp =>
      cases e with
      | signal sg =>
          cases sg with
          | Answer sdp =>
              by_cases hr : ready > 0 <;>
                simp [offerStep, hr, offerAnswerActions, addIceStep,
                  foldl_addIceStep_addIces]
          | Offer sdp => simp [offerStep]
          | IceCandidate c => simp [offerStep]
      | signalClosed => simp [offerStep]
      | localCandidate obj => simp [offerStep]
      | channelOpen ch => simp [offerStep]
  | waitOpen =>
      have hr : r = true := h3 (Or.inl rfl)
      subst hr
      cases e with
      | signal sg => cases sg <;> simp [offerStep, addIceStep]
      | signalClosed => simp [offerStep]
      | localCandidate obj => simp [offerStep, addIceStep]
      | channelOpen ch => simp [offerStep, addIceStep]
  | doneOk =>
      have hr : r = true := h3 (Or.inr rfl)
      subst hr
      cases e <;> simp [offerStep]
  | doneErr m =>
      cases e <;> simp [offerStep]

theorem offerStep_count_le (c : String) (s : HsState) (e : Event) :
    countIceSends c (offerStep s e).2 ≤ countLocalCandidates c [e] := by
  obtain ⟨ph, buf, ready⟩ := s
  cases ph with
  | waitRemoteSdp =>
      cases e with
      | signal sg =>
          cases sg with
          | Answer sdp =>
              by_cases hr : ready > 0 <;>
                simp [offerStep, hr, offerAnswerActions, countIceSends, isIceSend,
                  countLocalCandidates, isLocalCand, List.countP_cons,
                  List.countP_append, countP_iceSend_addIces]
          | Offer sdp => simp [offerStep, countIceSends, countLocalCandidates]
          | IceCandidate d => simp [offerStep, countIceSends, countLocalCandidates]
      | signalClosed => simp [offerStep, countIceSends, countLocalCandidates]
      | localCandidate obj => simp [offerStep, countIceSends, countLocalCandidates]
      | channelOpen ch => simp [offerStep, countIceSends, countLocalCandidates]
  | waitOpen =>
      cases e with
      | signal sg =>
          cases sg <;>
            simp [offerStep, countIceSends, isIceSend, countLocalCandidates,
              List.countP_cons]
      | signalClosed => simp [offerStep, countIceSends, countLocalCandidates]
      | localCandidate obj =>
          simp [offerStep, countIceSends, isIceSend, countLocalCandidates,
            isLocalCand, List.countP_cons]
      | channelOpen ch =>
          simp [offerStep, countIceSends, isIceSend, countLocalCandidates,
            List.countP_cons]
  | doneOk => cases e <;> simp [offerStep, countIceSends, countLocalCandidates]
  | doneErr m => cases e <;> simp [offerStep, countIceSends, countLocalCandidates]

theorem offerStep_send_origin (s : HsState) (e : Event) (a : Action)
    (ha : a ∈ (offerStep s e).2) :
    ∀ d, a = Action.sendSignal (PeerSignal.IceCandidate d) →
      ∃ obj, e = Event.localCandidate obj ∧ obj.candidate = d := by
  intro d heq
  subst heq
  obtain ⟨ph, buf, ready⟩ := s
  cases ph with
  | waitRemoteSdp =>
      cases e with
      | signal sg =>
          cases sg with
          | Answer sdp =>
              by_cases hr : ready > 0 <;>
                simp [offerStep, hr, offerAnswerActions, List.mem_append,
                  List.mem_map] at ha
          | Offer sdp => simp [offerStep] at ha
          | IceCandidate c => simp [offerStep] at ha
      | signalClosed => simp [offerStep] at ha
      | localCandidate obj => simp [offerStep] at ha
      | channelOpen ch => simp [offerStep] at ha
  | waitOpen =>
      cases e with
      | signal sg => cases sg <;> simp [offerStep] at ha
      | signalClosed => simp [offerStep] at ha
      | localCandidate obj =>
          simp [offerStep] at ha
          exact ⟨obj, rfl, by simpa using ha.symm⟩
      | channelOpen ch => simp [offerStep] at ha
  | doneOk => cases e <;> simp [offerStep] at ha
  | doneErr m => cases e <;> simp [offerStep] at ha

theorem offerStep_addIce_shape (s : HsState) (e : Event) (a : Action)
    (ha : a ∈ (offerStep s e).2) :
    ∀ init, a = Action.addIceCandidate init → ∃ c, init = iceCandidateInit c := by
  intro init heq
  subst heq
  obtain ⟨ph, buf, ready⟩ := s
  cases ph with
  | waitRemoteSdp =>
      cases e with
      | signal sg =>
          cases sg with
          | Answer sdp =>
              by_cases hr : ready > 0 <;>
                · simp [offerStep, hr, offerAnswerActions, List.mem_append,
                    List.mem_map] at ha
                  obtain ⟨c, _, hc⟩ := ha
                  exact ⟨c, hc.symm⟩
          | Offer sdp => simp [offerStep] at ha
          | IceCandidate c => simp [offerStep] at ha
      | signalClosed => simp [offerStep] at ha
      | localCandidate obj => simp [offerStep] at ha
      | channelOpen ch => simp [offerStep] at ha
  | waitOpen =>
      cases e with
      | signal sg =>
          cases sg with
          | IceCandidate c =>
              simp [offerStep] at ha
              exact ⟨c, ha⟩
          | Offer sdp => simp [offerStep] at ha
          | Answer sdp => simp [offerStep] at ha
      | signalClosed => simp [offerStep] at ha
      | localCandidate obj => simp [offerStep] at ha
      | channelOpen ch => simp [offerStep] at ha
  | doneOk => cases e <;> simp [offerStep] at ha
  | doneErr m => cases e <;> simp [offerStep] at ha

theorem offerStep_quiet (s : HsState) (e : Event) (h0 : s.ready = 0)
    (hph : s.phase ≠ HsPhase.doneOk) (he : ∀ ch, e ≠ Event.channelOpen ch) :
    (offerStep s e).1.ready = 0 ∧ (offerStep s e).1.phase ≠ HsPhase.doneOk := by
  obtain ⟨ph, buf, ready⟩ := s
  simp only at h0 hph
  subst h0
  cases ph with
  | waitRemoteSdp =>
      cases e with
      | signal sg => cases sg <;> simp [offerStep]
      | signalClosed => simp [offerStep]
      | localCandidate obj => simp [offerStep]
      | channelOpen ch => exact absurd rfl (he ch)
  | waitOpen =>
      cases e with
      | signal sg => cases sg <;> simp [offerStep]
      | signalClosed => simp [offerStep]
      | localCandidate obj => simp [offerStep]
      | channelOpen ch => exact absurd rfl (he ch)
  | doneOk => exact absurd rfl hph
  | doneErr m => cases e <;> simp [offerStep]

theorem offerStep_absorb (s : HsState) (e : Event)
    (h : s.phase = HsPhase.doneOk ∨ ∃ m, s.phase = HsPhase.doneErr m) :
    offerStep s e = (s, []) := by
  obtain ⟨ph, buf, ready⟩ := s
  rcases h with h | ⟨m, h⟩ <;> simp only at h <;> subst h <;>
    cases e <;> simp [offerStep]

theorem offerStep_last_detach (s : HsState) (e : Event)
    (hph : s.phase ≠ HsPhase.doneOk) (hdone : (offerStep s e).1.phase = HsPhase.doneOk) :
    (offerStep s e).2.getLast? = some Action.detachIceObserver := by
  obtain ⟨ph, buf, ready⟩ := s
  simp only at hph
  cases ph with
  | waitRemoteSdp =>
      cases e with
      | signal sg =>
          cases sg with
          | Answer sdp =>
              by_cases hr : ready > 0
              · simp [offerStep, hr, List.getLast?_concat]
              · simp [offerStep, hr] at hdone
          | Offer sdp => simp [offerStep] at hdone
          | IceCandidate c => simp [offerStep] at hdone
      | signalClosed => simp [offerStep] at hdone
      | localCandidate obj => simp [offerStep] at hdone
      | channelOpen ch => simp [offerStep] at hdone
  | waitOpen =>
      cases e with
      | signal sg => cases sg <;> simp [offerStep] at hdone
      | signalClosed => simp [offerStep] at hdone
      | localCandidate obj => simp [offerStep] at hdone
      | channelOpen ch => simp [offerStep]
  | doneOk => exact absurd rfl hph
  | doneErr m => cases e <;> simp [offerStep] at hdone

theorem runOffer_quietWait : ∀ (pre : List Event) (buf : List String) (k : Nat),
    (∀ sdp, Event.signal (PeerSignal.Answer sdp) ∉ pre) →
    Event.signalClosed ∉ pre →
    runHs offerStep ⟨HsPhase.waitRemoteSdp, buf, k⟩ pre =
      (⟨HsPhase.waitRemoteSdp, buf ++ iceSignals pre, k + countOpens pre⟩, []) := by
  intro pre
  induction pre with
  | nil => intro buf k _ _; simp [runHs, iceSignals, countOpens]
  | cons e rest ih =>
      intro buf k hA hC
      have hA2 : ∀ sdp, Event.signal (PeerSignal.Answer sdp) ∉ rest :=
        fun sdp hm => hA sdp (List.mem_cons_of_mem _ hm)
      have hC2 : Event.signalClosed ∉ rest := fun hm => hC (List.mem_cons_of_mem _ hm)
      cases e with
      | signal sg =>
          cases sg with
          | Answer sdp => exact absurd (List.mem_cons_self _ _) (hA sdp)
          | Offer sdp =>
              simp [runHs, offerStep, ih _ _ hA2 hC2, iceSignals, countOpens]
          | IceCandidate c =>
              simp [runHs, offerStep, ih _ _ hA2 hC2, iceSignals, countOpens]
      | signalClosed => exact absurd (List.mem_cons_self _ _) hC
      | localCandidate obj =>
          simp [runHs, offerStep, ih _ _ hA2 hC2, iceSignals, countOpens]
      | channelOpen ch =>
          simp [runHs, offerStep, ih _ _ hA2 hC2, iceSignals, countOpens]
          omega

/-! ### Step obligations for the accepter -/

theorem acceptStep_iceSend_inv (ans : String) (s : HsState) (e : Event)
    (st : Bool × Bool × Bool) (h1 : st.1 = true)
    (h3 : s.phase = HsPhase.waitOpen ∨ s.phase = HsPhase.doneOk →
      st.2.1 = true ∧ st.2.2 = true) :
    (List.foldl iceSendStep st (acceptStep ans s e).2).1 = true ∧
      ((acceptStep ans s e).1.phase = HsPhase.waitOpen ∨
          (acceptStep ans s e).1.phase = HsPhase.doneOk →
        (List.foldl iceSendStep st (acceptStep ans s e).2).2.1 = true ∧
          (List.foldl iceSendStep st (acceptStep ans s e).2).2.2 = true) := by
  obtain ⟨ph, buf, ready⟩ := s
  cases ph with
  | waitRemoteSdp =>
      cases e with
      | signal sg =>
          cases sg with
          | Offer sdp =>
              by_cases hr : ready > 0 <;>
                simp [acceptStep, hr, acceptOfferActions, iceSendStep,
                  foldl_iceSendStep_addIces, h1]
          | Answer sdp => simp [acceptStep, h1]
          | IceCandidate c => simp [acceptStep, h1]
      | signalClosed => simp [acceptStep, h1]
      | localCandidate obj => simp [acceptStep, h1]
      | channelOpen ch => simp [acceptStep, h1]
  | waitOpen =>
      obtain ⟨hl, hr⟩ := h3 (Or.inl rfl)
      cases e with
      | signal sg => cases sg <;> simp [acceptStep, iceSendStep, h1, hl, hr]
      | signalClosed => simp [acceptStep, h1, hl, hr]
      | localCandidate obj => simp [acceptStep, iceSendStep, h1, hl, hr]
      | channelOpen ch => simp [acceptStep, iceSendStep, h1, hl, hr]
  | doneOk =>
      obtain ⟨hl, hr⟩ := h3 (Or.inr rfl)
      cases e <;> simp [acceptStep, h1, hl, hr]
  | doneErr m =>
      cases e <;> simp [acceptStep, h1]

theorem acceptStep_addIce_inv (ans : String) (s : HsState) (e : Event)
    (st : Bool × Bool) (h1 : st.1 = true)
    (h3 : s.phase = HsPhase.waitOpen ∨ s.phase = HsPhase.doneOk → st.2 = true) :
    (List.foldl addIceStep st (acceptStep ans s e).2).1 = true ∧
      ((acceptStep ans s e).1.phase = HsPhase.waitOpen ∨
          (acceptStep ans s e).1.phase = HsPhase.doneOk →
        (List.foldl addIceStep st (acceptStep ans s e).2).2 = true) := by
  obtain ⟨ph, buf, ready⟩ := s
  obtain ⟨ok, r⟩ := st
  simp only at h1 h3
  subst h1
  cases ph with
  | waitRemoteSdp =>
      cases e with
      | signal sg =>
          cases sg with
          | Offer sdp =>
              by_cases hr : ready > 0 <;>
                simp [acceptStep, hr, acceptOfferActions, addIceStep,
                  foldl_addIceStep_addIces]
          | Answer sdp => simp [acceptStep]
          | IceCandidate c => simp [acceptStep]
      | signalClosed => simp [acceptStep]
      | localCandidate obj => simp [acceptStep]
      | channelOpen ch => simp [acceptStep]
  | waitOpen =>
      have hr : r = true := h3 (Or.inl rfl)
      subst hr
      cases e with
      | signal sg => cases sg <;> simp [acceptStep, addIceStep]
      | signalClosed => simp [acceptStep]
      | localCandidate obj => simp [acceptStep, addIceStep]
      | channelOpen ch => simp [acceptStep, addIceStep]
  | doneOk =>
      have hr : r = true := h3 (Or.inr rfl)
      subst hr
      cases e <;> simp [acceptStep]
  | doneErr m =>
      cases e <;> simp [acceptStep]

theorem acceptStep_count_le (ans : String) (c : String) (s : HsState) (e : Event) :
    countIceSends c (acceptStep ans s e).2 ≤ countLocalCandidates c [e] := by
  obtain ⟨ph, buf, ready⟩ := s
  cases ph with
  | waitRemoteSdp =>
      cases e with
      | signal sg =>
          cases sg with
          | Offer sdp =>
              by_cases hr : ready > 0 <;>
                simp [acceptStep, hr, acceptOfferActions, countIceSends, isIceSend,
                  countLocalCandidates, isLocalCand, List.countP_cons,
                  List.countP_append, countP_iceSend_addIces]
          | Answer sdp => simp [acceptStep, countIceSends, countLocalCandidates]
          | IceCandidate d => simp [acceptStep, countIceSends, countLocalCandidates]
      | signalClosed => simp [acceptStep, countIceSends, countLocalCandidates]
      | localCandidate obj => simp [acceptStep, countIceSends, countLocalCandidates]
      | channelOpen ch => simp [acceptStep, countIceSends, countLocalCandidates]
  | waitOpen =>
      cases e with
      | signal sg =>
          cases sg <;>
            simp [acceptStep, countIceSends, isIceSend, countLocalCandidates,
              List.countP_cons]
      | signalClosed => simp [acceptStep, countIceSends, countLocalCandidates]
      | localCandidate obj =>
          simp [acceptStep, countIceSends, isIceSend, countLocalCandidates,
            isLocalCand, List.countP_cons]
      | channelOpen ch =>
          simp [acceptStep, countIceSends, isIceSend, countLocalCandidates,
            List.countP_cons]
  | doneOk => cases e <;> simp [acceptStep, countIceSends, countLocalCandidates]
  | doneErr m => cases e <;> simp [acceptStep, countIceSends, countLocalCandidates]

theorem acceptStep_send_origin (ans : String) (s : HsState) (e : Event) (a : Action)
    (ha : a ∈ (acceptStep ans s e).2) :
    ∀ d, a = Action.sendSignal (PeerSignal.IceCandidate d) →
      ∃ obj, e = Event.localCandidate obj ∧ obj.candidate = d := by
  intro d heq
  subst heq
  obtain ⟨ph, buf, ready⟩ := s
  cases ph with
  | waitRemoteSdp =>
      cases e with
      | signal sg =>
          cases sg with
          | Offer sdp =>
              by_cases hr : ready > 0 <;>
                simp [acceptStep, hr, acceptOfferActions, List.mem_append,
                  List.mem_map] at ha
          | Answer sdp => simp [acceptStep] at ha
          | IceCandidate c => simp [acceptStep] at ha
      | signalClosed => simp [acceptStep] at ha
      | localCandidate obj => simp [acceptStep] at ha
      | channelOpen ch => simp [acceptStep] at ha
  | waitOpen =>
      cases e with
      | signal sg => cases sg <;> simp [acceptStep] at ha
      | signalClosed => simp [acceptStep] at ha
      | localCandidate obj =>
          simp [acceptStep] at ha
          exact ⟨obj, rfl, by simpa using ha.symm⟩
      | channelOpen ch => simp [acceptStep] at ha
  | doneOk => cases e <;> simp [acceptStep] at ha
  | doneErr m => cases e <;> simp [acceptStep] at ha

theorem acceptStep_addIce_shape (ans : String) (s : HsState) (e : Event) (a : Action)
    (ha : a ∈ (acceptStep ans s e).2) :
    ∀ init, a = Action.addIceCandidate init → ∃ c, init = iceCandidateInit c := by
  intro init heq
  subst heq
  obtain ⟨ph, buf, ready⟩ := s
  cases ph with
  | waitRemoteSdp =>
      cases e with
      | signal sg =>
          cases sg with
          | Offer sdp =>
              by_cases hr : ready > 0 <;>
                · simp [acceptStep, hr, acceptOfferActions, List.mem_append,
                    List.mem_map] at ha
                  obtain ⟨c, _, hc⟩ := ha
                  exact ⟨c, hc.symm⟩
          | Answer sdp => simp [acceptStep] at ha
          | IceCandidate c => simp [acceptStep] at ha
      | signalClosed => simp [acceptStep] at ha
      | localCandidate obj => simp [acceptStep] at ha
      | channelOpen ch => simp [acceptStep] at ha
  | waitOpen =>
      cases e with
      | signal sg =>
          cases sg with
          | IceCandidate c =>
              simp [acceptStep] at ha
              exact ⟨c, ha⟩
          | Offer sdp => simp [acceptStep] at ha
          | Answer sdp => simp [acceptStep] at ha
      | signalClosed => simp [acceptStep] at ha
      | localCandidate obj => simp [acceptStep] at ha
      | channelOpen ch => simp [acceptStep] at ha
  | doneOk => cases e <;> simp [acceptStep] at ha
  | doneErr m => cases e <;> simp [acceptStep] at ha

theorem acceptStep_quiet (ans : String) (s : HsState) (e : Event) (h0 : s.ready = 0)
    (hph : s.phase ≠ HsPhase.doneOk) (he : ∀ ch, e ≠ Event.channelOpen ch) :
    (acceptStep ans s e).1.ready = 0 ∧ (acceptStep ans s e).1.phase ≠ HsPhase.doneOk := by
  obtain ⟨ph, buf, ready⟩ := s
  simp only at h0 hph
  subst h0
  cases ph with
  | waitRemoteSdp =>
      cases e with
      | signal sg => cases sg <;> simp [acceptStep]
      | signalClosed => simp [acceptStep]
      | localCandidate obj => simp [acceptStep]
      | channelOpen ch => exact absurd rfl (he ch)
  | waitOpen =>
      cases e with
      | signal sg => cases sg <;> simp [acceptStep]
      | signalClosed => simp [acceptStep]
      | localCandidate obj => simp [acceptStep]
      | channelOpen ch => exact absurd rfl (he ch)
  | doneOk => exact absurd rfl hph
  | doneErr m => cases e <;> simp [acceptStep]

theorem acceptStep_absorb (ans : String) (s : HsState) (e : Event)
    (h : s.phase = HsPhase.doneOk ∨ ∃ m, s.phase = HsPhase.doneErr m) :
    acceptStep ans s e = (s, []) := by
  obtain ⟨ph, buf, ready⟩ := s
  rcases h with h | ⟨m, h⟩ <;> simp only at h <;> subst h <;>
    cases e <;> simp [acceptStep]

theorem acceptStep_last_detach (ans : String) (s : HsState) (e : Event)
    (hph : s.phase ≠ HsPhase.doneOk)
    (hdone : (acceptStep ans s e).1.phase = HsPhase.doneOk) :
    (acceptStep ans s e).2.getLast? = some Action.detachIceObserver := by
  obtain ⟨ph, buf, ready⟩ := s
  simp only at hph
  cases ph with
  | waitRemoteSdp =>
      cases e with
      | signal sg =>
          cases sg with
          | Offer sdp =>
              by_cases hr : ready > 0
              · simp [acceptStep, hr, List.getLast?_concat]
              · simp [acceptStep, hr] at hdone
          | Answer sdp => simp [acceptStep] at hdone
          | IceCandidate c => simp [acceptStep] at hdone
      | signalClosed => simp [acceptStep] at hdone
      | localCandidate obj => simp [acceptStep] at hdone
      | channelOpen ch => simp [acceptStep] at hdone
  | waitOpen =>
      cases e with
      | signal sg => cases sg <;> simp [acceptStep] at hdone
      | signalClosed => simp [acceptStep] at hdone
      | localCandidate obj => simp [acceptStep] at hdone
      | channelOpen ch => simp [acceptStep]
  | doneOk => exact absurd rfl hph
  | doneErr m => cases e <;> simp [acceptStep] at hdone

theorem runAccept_quietWait (ans : String) :
    ∀ (pre : List Event) (buf : List String) (k : Nat),
    (∀ sdp, Event.signal (PeerSignal.Offer sdp) ∉ pre) →
    Event.signalClosed ∉ pre →
    runHs (acceptStep ans) ⟨HsPhase.waitRemoteSdp, buf, k⟩ pre =
      (⟨HsPhase.waitRemoteSdp, buf ++ iceSignals pre, k + countOpens pre⟩, []) := by
  intro pre
  induction pre with
  | nil => intro buf k _ _; simp [runHs, iceSignals, countOpens]
  | cons e rest ih =>
      intro buf k hA hC
      have hA2 : ∀ sdp, Event.signal (PeerSignal.Offer sdp) ∉ rest :=
        fun sdp hm => hA sdp (List.mem_cons_of_mem _ hm)
      have hC2 : Event.signalClosed ∉ rest := fun hm => hC (List.mem_cons_of_mem _ hm)
      cases e with
      | signal sg =>
          cases sg with
          | Offer sdp => exact absurd (List.mem_cons_self _ _) (hA sdp)
          | Answer sdp =>
              simp [runHs, acceptStep, ih _ _ hA2 hC2, iceSignals, countOpens]
          | IceCandidate c =>
              simp [runHs, acceptStep, ih _ _ hA2 hC2, iceSignals, countOpens]
      | signalClosed => exact absurd (List.mem_cons_self _ _) hC
      | localCandidate obj =>
          simp [runHs, acceptStep, ih _ _ hA2 hC2, iceSignals, countOpens]
      | channelOpen ch =>
          simp [runHs, acceptStep, ih _ _ hA2 hC2, iceSignals, countOpens]
          omega

/-! ### Claim theorems -/

/-- C1: for every outbound IceCandidate signal emitted by a handshake
(offerer or accepter), both the local description and the remote
description of that peer connection have been set strictly before the
signal is sent; no local ICE candidate is ever transmitted earlier.
Stated as the both-descriptions trace monitor holding on every possible
schedule of either handshake. -/
theorem c1_ice_sent_after_both_descriptions
    (offerSdp answerSdp : String) (schedO schedA : List Event) :
    iceSendsGuarded (handshake_offer_trace offerSdp schedO) = true ∧
      iceSendsGuarded (handshake_accept_trace answerSdp schedA) = true := by
  constructor
  · unfold iceSendsGuarded handshake_offer_trace
    rw [List.foldl_append]
    have hinit : List.foldl iceSendStep (true, false, false)
        (offerInitActions offerSdp) = (true, true, false) := by
      simp [offerInitActions, iceSendStep]
    rw [hinit]
    have h := runHs_foldl_invariant offerStep iceSendStep
      (fun s st => st.1 = true ∧ st.2.1 = true ∧
        (s.phase = HsPhase.waitOpen ∨ s.phase = HsPhase.doneOk → st.2.2 = true))
      (fun s e st hI => offerStep_iceSend_inv s e st hI.1 hI.2.1 hI.2.2)
      schedO hsInit (true, true, false)
      ⟨rfl, rfl, by intro h; rcases h with h | h <;> simp [hsInit] at h⟩
    exact h.1
  · unfold iceSendsGuarded handshake_accept_trace
    have h := runHs_foldl_invariant (acceptStep answerSdp) iceSendStep
      (fun s st => st.1 = true ∧
        (s.phase = HsPhase.waitOpen ∨ s.phase = HsPhase.doneOk →
          st.2.1 = true ∧ st.2.2 = true))
      (fun s e st hI => acceptStep_iceSend_inv answerSdp s e st hI.1 hI.2)
      schedA hsInit (true, false, false)
      ⟨rfl, by intro h; rcases h with h | h <;> simp [hsInit] at h⟩
    exact h.1

/-- C2: a remote ICE candidate is applied (`addIceCandidate`) only after
`setRemoteDescription` for that connection, on every schedule of either
handshake (first two conjuncts, via the remote-description monitor); and
candidates that arrive before the expected Answer (offerer) or Offer
(accepter) are buffered and then actually applied once the remote
description is set (last two conjuncts). -/
theorem c2_adds_after_remote_description :
    (∀ (offerSdp : String) (sched : List Event),
        addsGuarded (handshake_offer_trace offerSdp sched) = true) ∧
      (∀ (answerSdp : String) (sched : List Event),
          addsGuarded (handshake_accept_trace answerSdp sched) = true) ∧
      (∀ (offerSdp a c : String) (pre post : List Event),
          (∀ sdp, Event.signal (PeerSignal.Answer sdp) ∉ pre) →
          Event.signalClosed ∉ pre →
          Event.signal (PeerSignal.IceCandidate c) ∈ pre →
          Action.addIceCandidate (iceCandidateInit c) ∈
            handshake_offer_trace offerSdp
              (pre ++ Event.signal (PeerSignal.Answer a) :: post)) ∧
      (∀ (answerSdp o c : String) (pre post : List Event),
          (∀ sdp, Event.signal (PeerSignal.Offer sdp) ∉ pre) →
          Event.signalClosed ∉ pre →
          Event.signal (PeerSignal.IceCandidate c) ∈ pre →
          Action.addIceCandidate (iceCandidateInit c) ∈
            handshake_accept_trace answerSdp
              (pre ++ Event.signal (PeerSignal.Offer o) :: post)) := by
  refine ⟨?_, ?_, ?_, ?_⟩
  · intro offerSdp sched
    unfold addsGuarded handshake_offer_trace
    rw [List.foldl_append]
    have hinit : List.foldl addIceStep (true, false)
        (offerInitActions offerSdp) = (true, false) := by
      simp [offerInitActions, addIceStep]
    rw [hinit]
    have h := runHs_foldl_invariant offerStep addIceStep
      (fun s st => st.1 = true ∧
        (s.phase = HsPhase.waitOpen ∨ s.phase = HsPhase.doneOk → st.2 = true))
      (fun s e st hI => offerStep_addIce_inv s e st hI.1 hI.2)
      sched hsInit (true, false)
      ⟨rfl, by intro h; rcases h with h | h <;> simp [hsInit] at h⟩
    exact h.1
  · intro answerSdp sched
    unfold addsGuarded handshake_accept_trace
    have h := runHs_foldl_invariant (acceptStep answerSdp) addIceStep
      (fun s st => st.1 = true ∧
        (s.phase = HsPhase.waitOpen ∨ s.phase = HsPhase.doneOk → st.2 = true))
      (fun s e st hI => acceptStep_addIce_inv answerSdp s e st hI.1 hI.2)
      sched hsInit (true, false)
      ⟨rfl, by intro h; rcases h with h | h <;> simp [hsInit] at h⟩
    exact h.1
  · intro offerSdp a c pre post hA hC hc
    have hmem : c ∈ iceSignals pre := mem_iceSignals hc
    have hpre := runOffer_quietWait pre [] 0 hA hC
    unfold handshake_offer_trace
    rw [show hsInit = (⟨HsPhase.waitRemoteSdp, [], 0⟩ : HsState) from rfl,
      runHs_append, hpre]
    simp only [runHs, offerStep, List.nil_append]
    refine List.mem_append.mpr (Or.inr (List.mem_append.mpr (Or.inl
      (List.mem_append.mpr (Or.inl ?_)))))
    unfold offerAnswerActions
    exact List.mem_cons_of_mem _ (List.mem_cons_of_mem _
      (List.mem_map_of_mem _ hmem))
  · intro answerSdp o c pre post hA hC hc
    have hmem : c ∈ iceSignals pre := mem_iceSignals hc
    have hpre := runAccept_quietWait answerSdp pre [] 0 hA hC
    unfold handshake_accept_trace
    rw [show hsInit = (⟨HsPhase.waitRemoteSdp, [], 0⟩ : HsState) from rfl,
      runHs_append, hpre]
    simp only [runHs, acceptStep, List.nil_append]
    refine List.mem_append.mpr (Or.inl (List.mem_append.mpr (Or.inl ?_)))
    unfold acceptOfferActions
    exact List.mem_cons_of_mem _ (List.mem_cons_of_mem _ (List.mem_cons_of_mem _
      (List.mem_cons_of_mem _ (List.mem_cons_of_mem _
        (List.mem_map_of_mem _ hmem)))))

/-- C2 witness: a concrete run of each buffering conjunct — a remote
candidate delivered before the Answer (resp. the Offer) is applied. -/
theorem c2_adds_after_remote_description_witness :
    Action.addIceCandidate (iceCandidateInit "y") ∈
      handshake_offer_trace "o"
        ([Event.signal (PeerSignal.IceCandidate "y")] ++
          Event.signal (PeerSignal.Answer "a") :: []) ∧
      Action.addIceCandidate (iceCandidateInit "z") ∈
        handshake_accept_trace "ans"
          ([Event.signal (PeerSignal.IceCandidate "z")] ++
            Event.signal (PeerSignal.Offer "off") :: []) := by
  constructor
  · exact c2_adds_after_remote_description.2.2.1 "o" "a" "y"
      [Event.signal (PeerSignal.IceCandidate "y")] []
      (by intro sdp h; simp at h) (by simp) (by simp)
  · exact c2_adds_after_remote_description.2.2.2 "ans" "off" "z"
      [Event.signal (PeerSignal.IceCandidate "z")] []
      (by intro sdp h; simp at h) (by simp) (by simp)

/-- A successful offerer outcome means the machine finished in `doneOk`. -/
theorem offer_result_ok_phase {pid : PeerId} {sched : List Event}
    {r : PeerId × DataChannelConfig × DataChannelConfig}
    (h : handshake_offer_result pid sched = some (Except.ok r)) :
    (runHs offerStep hsInit sched).1.phase = HsPhase.doneOk := by
  unfold handshake_offer_result at h
  cases hph : (runHs offerStep hsInit sched).1.phase <;> rw [hph] at h <;>
    simp at h

/-- A successful accepter outcome means the machine finished in `doneOk`. -/
theorem accept_result_ok_phase {ans : String} {pid : PeerId} {sched : List Event}
    {r : PeerId × DataChannelConfig × DataChannelConfig}
    (h : handshake_accept_result ans pid sched = some (Except.ok r)) :
    (runHs (acceptStep ans) hsInit sched).1.phase = HsPhase.doneOk := by
  unfold handshake_accept_result at h
  cases hph : (runHs (acceptStep ans) hsInit sched).1.phase <;> rw [hph] at h <;>
    simp at h

/-- C3 counterexample: the platform fires `onicecandidate` with "X" on the
offerer before the Answer arrives; the handshake then completes
successfully, yet the number of `IceCandidate "X"` signals emitted is 0,
not the exactly-one the claim requires — the early candidate is dropped
because the observer is attached only after the Answer is applied. -/
theorem c3_counterexample :
    countIceSends "X"
        (handshake_offer_trace "o"
          [Event.localCandidate ⟨"X", none, none, none⟩,
            Event.signal (PeerSignal.Answer "a"),
            Event.channelOpen Channel.Unreliable]) = 0 ∧
      handshake_offer_result "p"
          [Event.localCandidate ⟨"X", none, none, none⟩,
            Event.signal (PeerSignal.Answer "a"),
            Event.channelOpen Channel.Unreliable] =
        some (Except.ok ("p", create_data_channel_pair)) := by
  constructor <;> rfl

/-- C3 amended: a local candidate fired before the Answer is applied is
dropped — no IceCandidate signal for it is ever emitted (zero, not one) —
while local candidates fired after the Answer is applied and before the
channel opens are forwarded.  Conjunct 1: if every firing of candidate
line `c` happens before the Answer, no `IceCandidate c` signal appears in
the whole trace.  Conjunct 2: a candidate fired right after the Answer is
applied is transmitted. -/
theorem c3_amended :
    (∀ (offerSdp a c : String) (pre post : List Event),
        (∀ sdp, Event.signal (PeerSignal.Answer sdp) ∉ pre) →
        Event.signalClosed ∉ pre →
        countLocalCandidates c post = 0 →
        countIceSends c
          (handshake_offer_trace offerSdp
            (pre ++ Event.signal (PeerSignal.Answer a) :: post)) = 0) ∧
      (∀ (offerSdp a : String) (obj : RtcIceCandidate) (pre post : List Event),
          (∀ sdp, Event.signal (PeerSignal.Answer sdp) ∉ pre) →
          Event.signalClosed ∉ pre →
          (∀ ch, Event.channelOpen ch ∉ pre) →
          Action.sendSignal (PeerSignal.IceCandidate obj.candidate) ∈
            handshake_offer_trace offerSdp
              (pre ++ Event.signal (PeerSignal.Answer a) ::
                Event.localCandidate obj :: post)) := by
  constructor
  · intro offerSdp a c pre post hA hC hpost
    have hpre := runOffer_quietWait pre [] 0 hA hC
    unfold handshake_offer_trace
    rw [show hsInit = (⟨HsPhase.waitRemoteSdp, [], 0⟩ : HsState) from rfl,
      runHs_append, hpre]
    simp only [runHs, offerStep, List.nil_append, Nat.zero_add]
    by_cases hr : countOpens pre > 0
    · have habs : ∀ e2,
          offerStep ⟨HsPhase.doneOk, iceSignals pre, countOpens pre⟩ e2 =
            (⟨HsPhase.doneOk, iceSignals pre, countOpens pre⟩, []) :=
        fun e2 => offerStep_absorb _ e2 (Or.inl rfl)
      rw [if_pos hr, if_pos hr, runHs_absorb offerStep _ habs post]
      simp [countIceSends, List.countP_append, offerInitActions,
        offerAnswerActions, isIceSend, List.countP_cons, countP_iceSend_addIces]
    · have hle := runHs_count_le offerStep c (fun s e => offerStep_count_le c s e)
        post ⟨HsPhase.waitOpen, iceSignals pre, countOpens pre⟩
      rw [hpost] at hle
      have h0 := Nat.le_zero.mp hle
      rw [if_neg hr, if_neg hr]
      simp only [countIceSends, List.countP_append] at h0 ⊢
      simp [offerInitActions, offerAnswerActions, isIceSend, List.countP_cons,
        countP_iceSend_addIces, h0]
  · intro offerSdp a obj pre post hA hC hO
    have hpre := runOffer_quietWait pre [] 0 hA hC
    have hop : countOpens pre = 0 := countOpens_eq_zero pre hO
    unfold handshake_offer_trace
    rw [show hsInit = (⟨HsPhase.waitRemoteSdp, [], 0⟩ : HsState) from rfl,
      runHs_append, hpre, hop]
    simp only [runHs, offerStep, List.nil_append, Nat.zero_add, gt_iff_lt,
      Nat.lt_irrefl, if_false]
    simp [List.mem_append]

/-- C3 amended witness: concrete runs of both conjuncts — candidate "X"
fired only before the Answer yields zero sends, and a candidate fired
after the Answer is transmitted. -/
theorem c3_amended_witness :
    countIceSends "X"
        (handshake_offer_trace "o"
          ([Event.localCandidate ⟨"X", none, none, none⟩] ++
            Event.signal (PeerSignal.Answer "a") ::
              [Event.channelOpen Channel.Unreliable])) = 0 ∧
      Action.sendSignal (PeerSignal.IceCandidate "Z") ∈
        handshake_offer_trace "o"
          ([] ++ Event.signal (PeerSignal.Answer "a") ::
            Event.localCandidate ⟨"Z", none, none, none⟩ ::
              [Event.channelOpen Channel.Unreliable]) := by
  constructor
  · exact c3_amended.1 "o" "a" "X"
      [Event.localCandidate ⟨"X", none, none, none⟩]
      [Event.channelOpen Channel.Unreliable]
      (by intro sdp h; simp at h) (by simp) (by decide)
  · exact c3_amended.2 "o" "a" ⟨"Z", none, none, none⟩ []
      [Event.channelOpen Channel.Unreliable]
      (by intro sdp h; simp at h) (by simp) (by intro ch h; simp at h)

/-- C4 counterexample: on a successful offerer handshake the very last
effect is `detachIceObserver` (`conn.set_onicecandidate(None)`), so the
`onicecandidate` observer does not remain attached after success, and
the returned value is just the peer id with the two channels — there is
no trickle future. -/
theorem c4_counterexample :
    (handshake_offer_trace "o"
        [Event.signal (PeerSignal.Answer "a"),
          Event.channelOpen Channel.Unreliable]).getLast? =
      some Action.detachIceObserver ∧
      handshake_offer_result "p"
          [Event.signal (PeerSignal.Answer "a"),
            Event.channelOpen Channel.Unreliable] =
        some (Except.ok ("p", create_data_channel_pair)) := by
  constructor <;> rfl

/-- C4 amended: when a handshake succeeds, it detaches the
`onicecandidate` observer as its final effect and returns only the peer
id and the channel pair; there is no trickle future, and events delivered
after completion produce no further effects (late candidates are not
shipped). -/
theorem c4_amended (offerSdp ans : String) (pid : PeerId) (sched : List Event)
    (r : PeerId × DataChannelConfig × DataChannelConfig) :
    (handshake_offer_result pid sched = some (Except.ok r) →
        (handshake_offer_trace offerSdp sched).getLast? =
            some Action.detachIceObserver ∧
          ∀ extra, handshake_offer_trace offerSdp (sched ++ extra) =
            handshake_offer_trace offerSdp sched) ∧
      (handshake_accept_result ans pid sched = some (Except.ok r) →
          (handshake_accept_trace ans sched).getLast? =
              some Action.detachIceObserver ∧
            ∀ extra, handshake_accept_trace ans (sched ++ extra) =
              handshake_accept_trace ans sched) := by
  constructor
  · intro h
    have hdone := offer_result_ok_phase h
    have hlast := runHs_doneOk_last_detach offerStep
      (fun s e hd => offerStep_absorb s e hd)
      (fun s e hph hd => offerStep_last_detach s e hph hd)
      sched hsInit (by simp [hsInit]) hdone
    constructor
    · have hne : (runHs offerStep hsInit sched).2 ≠ [] := by
        intro hnil; rw [hnil] at hlast; simp at hlast
      unfold handshake_offer_trace
      rw [List.getLast?_append_of_ne_nil _ hne]
      exact hlast
    · intro extra
      unfold handshake_offer_trace
      rw [runHs_append]
      have habs : ∀ e2, offerStep (runHs offerStep hsInit sched).1 e2 =
          ((runHs offerStep hsInit sched).1, []) :=
        fun e2 => offerStep_absorb _ e2 (Or.inl hdone)
      rw [runHs_absorb offerStep _ habs extra]
      simp
  · intro h
    have hdone := accept_result_ok_phase h
    have hlast := runHs_doneOk_last_detach (acceptStep ans)
      (fun s e hd => acceptStep_absorb ans s e hd)
      (fun s e hph hd => acceptStep_last_detach ans s e hph hd)
      sched hsInit (by simp [hsInit]) hdone
    constructor
    · exact hlast
    · intro extra
      unfold handshake_accept_trace
      rw [runHs_append]
      have habs : ∀ e2, acceptStep ans (runHs (acceptStep ans) hsInit sched).1 e2 =
          ((runHs (acceptStep ans) hsInit sched).1, []) :=
        fun e2 => acceptStep_absorb ans _ e2 (Or.inl hdone)
      rw [runHs_absorb (acceptStep ans) _ habs extra]
      simp

/-- C4 amended witness: the amended statement evaluated on a concrete
successful offerer schedule. -/
theorem c4_amended_witness :
    (handshake_offer_trace "o"
        [Event.signal (PeerSignal.Answer "a"),
          Event.channelOpen Channel.Unreliable]).getLast? =
      some Action.detachIceObserver ∧
      ∀ extra, handshake_offer_trace "o"
          ([Event.signal (PeerSignal.Answer "a"),
            Event.channelOpen Channel.Unreliable] ++ extra) =
        handshake_offer_trace "o"
          [Event.signal (PeerSignal.Answer "a"),
            Event.channelOpen Channel.Unreliable] :=
  (c4_amended "o" "ans" "p"
    [Event.signal (PeerSignal.Answer "a"), Event.channelOpen Channel.Unreliable]
    ("p", create_data_channel_pair)).1 rfl

/-- C5 counterexample: when an in-flight handshake completes with an
error, the completion branch of the message loop does not log-and-discard
and continue — `check` panics with "handshake failed", aborting the
whole loop. -/
theorem c5_counterexample :
    handshake_complete_branch [] (Except.error "connection lost") =
      LoopOutcome.aborted "handshake failed" := rfl

/-- C5 amended: whenever a handshake future resolves to an error, the
completion branch panics via `expect("handshake failed")` (taking the
whole message loop down, including every other peer's channel), rather
than logging and discarding the entry. -/
theorem c5_amended (dcs : DataChannels) (msg : String) :
    handshake_complete_branch dcs (Except.error msg) =
      LoopOutcome.aborted "handshake failed" := rfl

/-- C6 counterexample: a schedule in which only the unreliable channel of
the pair ever fires `onopen`.  The offerer handshake still returns
success (it waits only for the first ready token) and the loop branch
publishes the peer, although the reliable channel of the published pair
never reached the open state. -/
theorem c6_counterexample :
    handshake_offer_result "p"
        [Event.signal (PeerSignal.Answer "a"),
          Event.channelOpen Channel.Unreliable] =
      some (Except.ok ("p", create_data_channel_pair)) ∧
      handshake_complete_branch [] (Except.ok ("p", create_data_channel_pair)) =
        LoopOutcome.ran [("p", create_data_channel_pair)] ["p"] [] ∧
      Event.channelOpen Channel.Reliable ∉
        [Event.signal (PeerSignal.Answer "a"),
          Event.channelOpen Channel.Unreliable] := by
  refine ⟨rfl, rfl, ?_⟩
  decide

/-- C6 amended: for every peer id published by the completion branch, the
entry exists in `data_channels` at publication time (insertion happens
before the send on `new_connected_peers_tx`) and at least one data
channel of the pair fired `onopen`; the handshake waits only for the
first open notification, so the other channel of the pair need not be
open yet. -/
theorem c6_amended (pid : PeerId) (sched : List Event) (dcs : DataChannels)
    (r : PeerId × DataChannelConfig × DataChannelConfig)
    (h : handshake_offer_result pid sched = some (Except.ok r)) :
    (∃ ch, Event.channelOpen ch ∈ sched) ∧
      handshake_complete_branch dcs (Except.ok r) =
        LoopOutcome.ran (dcInsert dcs r.1 (r.2.1, r.2.2)) [r.1] [] ∧
      dcLookup (dcInsert dcs r.1 (r.2.1, r.2.2)) r.1 = some (r.2.1, r.2.2) := by
  refine ⟨?_, ?_, ?_⟩
  · exact runHs_doneOk_needs_open offerStep
      (fun s e h0 hph he => offerStep_quiet s e h0 hph he)
      sched hsInit rfl (by simp [hsInit]) (offer_result_ok_phase h)
  · obtain ⟨p, u, rr⟩ := r
    rfl
  · simp [dcInsert, dcLookup]

/-- C6 amended witness: the amended statement evaluated on the concrete
one-open schedule. -/
theorem c6_amended_witness :
    (∃ ch, Event.channelOpen ch ∈
        [Event.signal (PeerSignal.Answer "a"),
          Event.channelOpen Channel.Unreliable]) ∧
      handshake_complete_branch [] (Except.ok ("p", create_data_channel_pair)) =
        LoopOutcome.ran (dcInsert [] "p" create_data_channel_pair) ["p"] [] ∧
      dcLookup (dcInsert [] "p" create_data_channel_pair) "p" =
        some create_data_channel_pair :=
  c6_amended "p"
    [Event.signal (PeerSignal.Answer "a"), Event.channelOpen Channel.Unreliable]
    [] ("p", create_data_channel_pair) rfl

/-- C7: if the handshake inbox closes before the expected SDP (the Answer
for the offerer, the Offer for the accepter), the handshake fails with
the "Signal server connection lost in the middle of a handshake" error,
and the loop's completion branch on that error publishes nothing on
`new_connected_peers_tx` (it aborts). -/
theorem c7_inbox_close_fails_handshake :
    (∀ (pid : PeerId) (pre rest : List Event),
        (∀ sdp, Event.signal (PeerSignal.Answer sdp) ∉ pre) →
        Event.signalClosed ∉ pre →
        handshake_offer_result pid (pre ++ Event.signalClosed :: rest) =
          some (Except.error signalLostMsg)) ∧
      (∀ (ans : String) (pid : PeerId) (pre rest : List Event),
          (∀ sdp, Event.signal (PeerSignal.Offer sdp) ∉ pre) →
          Event.signalClosed ∉ pre →
          handshake_accept_result ans pid (pre ++ Event.signalClosed :: rest) =
            some (Except.error signalLostMsg)) ∧
      (∀ (dcs : DataChannels),
          handshake_complete_branch dcs (Except.error signalLostMsg) =
            LoopOutcome.aborted "handshake failed") := by
  refine ⟨?_, ?_, fun dcs => rfl⟩
  · intro pid pre rest hA hC
    have hpre := runOffer_quietWait pre [] 0 hA hC
    unfold handshake_offer_result
    rw [show hsInit = (⟨HsPhase.waitRemoteSdp, [], 0⟩ : HsState) from rfl,
      runHs_append, hpre]
    simp only [runHs, offerStep]
    have habs : ∀ e2,
        offerStep ⟨HsPhase.doneErr signalLostMsg, [] ++ iceSignals pre,
            0 + countOpens pre⟩ e2 =
          (⟨HsPhase.doneErr signalLostMsg, [] ++ iceSignals pre,
            0 + countOpens pre⟩, []) :=
      fun e2 => offerStep_absorb _ e2 (Or.inr ⟨signalLostMsg, rfl⟩)
    rw [runHs_absorb offerStep _ habs rest]
  · intro ans pid pre rest hA hC
    have hpre := runAccept_quietWait ans pre [] 0 hA hC
    unfold handshake_accept_result
    rw [show hsInit = (⟨HsPhase.waitRemoteSdp, [], 0⟩ : HsState) from rfl,
      runHs_append, hpre]
    simp only [runHs, acceptStep]
    have habs : ∀ e2,
        acceptStep ans ⟨HsPhase.doneErr signalLostMsg, [] ++ iceSignals pre,
            0 + countOpens pre⟩ e2 =
          (⟨HsPhase.doneErr signalLostMsg, [] ++ iceSignals pre,
            0 + countOpens pre⟩, []) :=
      fun e2 => acceptStep_absorb ans _ e2 (Or.inr ⟨signalLostMsg, rfl⟩)
    rw [runHs_absorb (acceptStep ans) _ habs rest]

/-- C7 witness: concrete runs — the inbox closes right after a buffered
candidate, before any Answer (offerer) or Offer (accepter). -/
theorem c7_witness :
    handshake_offer_result "p"
        ([Event.signal (PeerSignal.IceCandidate "y")] ++
          Event.signalClosed :: []) = some (Except.error signalLostMsg) ∧
      handshake_accept_result "ans" "p"
          ([Event.signal (PeerSignal.IceCandidate "y")] ++
            Event.signalClosed :: []) = some (Except.error signalLostMsg) := by
  constructor
  · exact c7_inbox_close_fails_handshake.1 "p"
      [Event.signal (PeerSignal.IceCandidate "y")] []
      (by intro sdp h; simp at h) (by simp)
  · exact c7_inbox_close_fails_handshake.2.1 "ans" "p"
      [Event.signal (PeerSignal.IceCandidate "y")] []
      (by intro sdp h; simp at h) (by simp)

/-- C8 counterexample: the two channels of the pair are NOT created with
two distinct fixed ids — `create_data_channel_pair` configures both the
unreliable and the reliable channel with the same `DATA_CHANNEL_ID`. -/
theorem c8_counterexample :
    create_data_channel_pair.1.id = create_data_channel_pair.2.id := rfl

/-- C8 amended: every data channel is created with label "webudp",
`ordered = false`, `maxRetransmits = 0`, `negotiated = true`, id
`DATA_CHANNEL_ID` and array-buffer binary type; the implementation
creates an (unreliable, reliable) pair, and both channels of the pair
share the same fixed id `DATA_CHANNEL_ID` (not two distinct ids). -/
theorem c8_amended (ch : Channel) :
    (create_data_channel ch).label = "webudp" ∧
      (create_data_channel ch).ordered = false ∧
      (create_data_channel ch).maxRetransmits = 0 ∧
      (create_data_channel ch).negotiated = true ∧
      (create_data_channel ch).binaryType = RtcDataChannelType.Arraybuffer ∧
      (create_data_channel ch).id = DATA_CHANNEL_ID ∧
      create_data_channel_pair =
        (create_data_channel Channel.Unreliable,
          create_data_channel Channel.Reliable) ∧
      create_data_channel_pair.1.id = create_data_channel_pair.2.id :=
  ⟨rfl, rfl, rfl, rfl, rfl, rfl, rfl, rfl⟩

/-- C9: an ICE candidate travels on the wire as the textual candidate
line only — every transmitted `IceCandidate c` carries the `candidate`
field of some platform candidate object the connection fired — and on
the receiving side every applied candidate-init record has
`sdpMLineIndex = 0` with `sdpMid` and `usernameFragment` unset, in both
handshakes. -/
theorem c9_candidate_wire_format (offerSdp answerSdp : String)
    (schedO schedA : List Event) :
    (∀ c, Action.sendSignal (PeerSignal.IceCandidate c) ∈
        handshake_offer_trace offerSdp schedO →
      ∃ obj, Event.localCandidate obj ∈ schedO ∧ obj.candidate = c) ∧
      (∀ init, Action.addIceCandidate init ∈ handshake_offer_trace offerSdp schedO →
        init.sdpMLineIndex = some 0 ∧ init.sdpMid = none ∧
          init.usernameFragment = none) ∧
      (∀ c, Action.sendSignal (PeerSignal.IceCandidate c) ∈
          handshake_accept_trace answerSdp schedA →
        ∃ obj, Event.localCandidate obj ∈ schedA ∧ obj.candidate = c) ∧
      (∀ init, Action.addIceCandidate init ∈
          handshake_accept_trace answerSdp schedA →
        init.sdpMLineIndex = some 0 ∧ init.sdpMid = none ∧
          init.usernameFragment = none) := by
  refine ⟨?_, ?_, ?_, ?_⟩
  · intro c hmem
    unfold handshake_offer_trace at hmem
    rcases List.mem_append.mp hmem with hmem | hmem
    · simp [offerInitActions] at hmem
    · have h := runHs_action_source offerStep
        (fun a e => ∀ d, a = Action.sendSignal (PeerSignal.IceCandidate d) →
          ∃ obj, e = Event.localCandidate obj ∧ obj.candidate = d)
        (fun s e a ha => offerStep_send_origin s e a ha) schedO hsInit _ hmem
      obtain ⟨e, he, hR⟩ := h
      obtain ⟨obj, rfl, hobj⟩ := hR c rfl
      exact ⟨obj, he, hobj⟩
  · intro init hmem
    unfold handshake_offer_trace at hmem
    rcases List.mem_append.mp hmem with hmem | hmem
    · simp [offerInitActions] at hmem
    · have h := runHs_forall_actions offerStep
        (fun a => ∀ i, a = Action.addIceCandidate i → ∃ c, i = iceCandidateInit c)
        (fun s e a ha => offerStep_addIce_shape s e a ha) schedO hsInit _ hmem
      obtain ⟨c, rfl⟩ := h init rfl
      exact ⟨rfl, rfl, rfl⟩
  · intro c hmem
    unfold handshake_accept_trace at hmem
    have h := runHs_action_source (acceptStep answerSdp)
      (fun a e => ∀ d, a = Action.sendSignal (PeerSignal.IceCandidate d) →
        ∃ obj, e = Event.localCandidate obj ∧ obj.candidate = d)
      (fun s e a ha => acceptStep_send_origin answerSdp s e a ha) schedA hsInit _ hmem
    obtain ⟨e, he, hR⟩ := h
    obtain ⟨obj, rfl, hobj⟩ := hR c rfl
    exact ⟨obj, he, hobj⟩
  · intro init hmem
    unfold handshake_accept_trace at hmem
    have h := runHs_forall_actions (acceptStep answerSdp)
      (fun a => ∀ i, a = Action.addIceCandidate i → ∃ c, i = iceCandidateInit c)
      (fun s e a ha => acceptStep_addIce_shape answerSdp s e a ha) schedA hsInit _ hmem
    obtain ⟨c, rfl⟩ := h init rfl
    exact ⟨rfl, rfl, rfl⟩

/-- C9 witness: the wire-format statement evaluated on concrete
schedules — a transmitted "X" signal traces back to the platform object
that fired it, and a received "y" candidate is applied with
`sdpMLineIndex = 0` and nothing else populated. -/
theorem c9_candidate_wire_format_witness :
    (∃ obj, Event.localCandidate obj ∈
        [Event.signal (PeerSignal.Answer "a"),
          Event.localCandidate ⟨"X", some "0", some 0, some "u"⟩] ∧
        obj.candidate = "X") ∧
      ((iceCandidateInit "y").sdpMLineIndex = some 0 ∧
        (iceCandidateInit "y").sdpMid = none ∧
        (iceCandidateInit "y").usernameFragment = none) := by
  constructor
  · exact (c9_candidate_wire_format "o" "ans"
      [Event.signal (PeerSignal.Answer "a"),
        Event.localCandidate ⟨"X", some "0", some 0, some "u"⟩] []).1 "X"
      (by decide)
  · exact (c9_candidate_wire_format "o" "ans" []
      [Event.signal (PeerSignal.Offer "off"),
        Event.signal (PeerSignal.IceCandidate "y")]).2.2.2 (iceCandidateInit "y")
      (by decide)

/-- C10: an outbound application message addressed to a peer with no
entry in `data_channels` makes the message loop's lookup panic via
`expect("couldn't find data channel for peer")` — the branch aborts the
loop instead of logging or skipping, and this branch sits directly on the
public outbound-message interface (`peer_messages_out_rx`). -/
theorem c10_missing_peer_panics (dcs : DataChannels) (p : PeerId) (ch : Channel)
    (pkt : Packet) (h : dcLookup dcs p = none) :
    outbound_message_branch dcs (some (p, ch, pkt)) =
      LoopOutcome.aborted "couldn't find data channel for peer" := by
  simp [outbound_message_branch, h]

/-- C10 witness: a concrete outbound message for a peer that was never
inserted (empty channel map) hits the panic branch. -/
theorem c10_missing_peer_panics_witness :
    dcLookup [] "q" = none ∧
      outbound_message_branch [] (some ("q", Channel.Reliable, [1, 2])) =
        LoopOutcome.aborted "couldn't find data channel for peer" :=
  ⟨rfl, c10_missing_peer_panics [] "q" Channel.Reliable [1, 2] rfl⟩

end Matchbox
